import Mathlib

/-!
Verification of the schedAI scheduling service.

The development shallowly embeds the Python source:

* `services/conflict_service.py` — clock times are modelled as minutes
  after midnight (`Nat`); the source parses `"HH:MM"` strings into
  `datetime` values on a fixed date, so comparisons of those values
  coincide with comparisons of minutes.  Vacant slots are modelled as
  `(start, end)` minute pairs; the source formats them with an injective
  12-hour pretty-printer, which does not affect any interval property.
* `sched_AI.py` — the feasibility pre-check, the solver gate and the
  per-day view splitting.  Error strings are modelled as tagged values,
  one tag per `errors.append` site.
* `validator.py`, `api.py` — the class-based pre-check and its gate.
* `services/assignment_service.py` — the CP solver's boolean output is
  modelled as an arbitrary function `b` constrained exactly by the
  equations the source posts on the model (`sum of assign vars = 1` per
  course); the extraction loop is embedded directly.
* `services/schedule_service.py` — including Python list-indexing
  semantics (negative indices wrap; out-of-range raises `IndexError`)
  and the fact that reading `assign.room_id` on a `CourseAssignment`,
  which has no such field, raises `AttributeError`.
* `parse_time` — CPython `strptime` is modelled on `List Char` with the
  regex fragments CPython compiles for `%H`, `%M`, `%S`
  (`2[0-3]|[0-1]\d|\d`, `[0-5]\d|\d`, `6[0-1]|[0-5]\d|\d`), including
  alternation priority and the trailing "unconverted data" check.
-/

/-! ## Conflict service: data model (models/scheduling_model.py) -/

/-- A `ScheduleData` record (models/scheduling_model.py).  `start_time` and
`end_time` hold the parse of the source's clock strings, in minutes after
midnight. -/
structure ScheduleData where
  academic_year_id : String
  trimester_id : String
  room_id : String
  instructor_id : String
  days : List String
  start_time : Nat
  end_time : Nat
deriving DecidableEq, Repr

/-- Result tag of `check_schedule_conflict_logic`: the `"type"` field of the
returned dict, with `hnone` standing for the no-conflict return (which the
source reports as `{"conflict": False}`). -/
inductive ConflictType where
  | school_hours
  | lunch_break
  | room
  | instructor
  | hnone
deriving DecidableEq, Repr

/-- School opening time, `parse_time("06:00")`, in minutes. -/
def schoolStartMin : Nat := 360

/-- School closing time, `parse_time("21:00")`, in minutes. -/
def schoolEndMin : Nat := 1260

/-- Lunch start, `parse_time("12:00")`, in minutes. -/
def lunchStartMin : Nat := 720

/-- Lunch end, `parse_time("13:00")`, in minutes. -/
def lunchEndMin : Nat := 780

/-- The scan over `request.existing_schedules` in
`check_schedule_conflict_logic` (conflict_service.py lines 173-271):
records with a different academic year or trimester, with no shared day,
or with no time overlap are skipped; otherwise a room match returns a
room conflict, an instructor match returns an instructor conflict, and a
record matching neither is skipped.  The returned pair carries the
conflict type and the existing record it was raised for. -/
def conflictScan (new : ScheduleData) : List ScheduleData → ConflictType × Option ScheduleData
  | [] => (ConflictType.hnone, none)
  | ex :: rest =>
    if ex.academic_year_id = new.academic_year_id ∧ ex.trimester_id = new.trimester_id then
      if ex.days.any (fun d => new.days.contains d) then
        if new.start_time < ex.end_time ∧ new.end_time > ex.start_time then
          if ex.room_id = new.room_id then (ConflictType.room, some ex)
          else if ex.instructor_id = new.instructor_id then (ConflictType.instructor, some ex)
          else conflictScan new rest
        else conflictScan new rest
      else conflictScan new rest
    else conflictScan new rest

/-- `check_schedule_conflict_logic` (conflict_service.py lines 107-278),
restricted to the conflict type and conflicting record; the message
strings and vacancy suggestions computed alongside are covered by
`get_vacant_slots` below. -/
def check_schedule_conflict_logic (new : ScheduleData) (existing : List ScheduleData) :
    ConflictType × Option ScheduleData :=
  if new.start_time < schoolStartMin ∨ new.end_time > schoolEndMin then
    (ConflictType.school_hours, none)
  else if new.start_time < lunchEndMin ∧ new.end_time > lunchStartMin then
    (ConflictType.lunch_break, none)
  else conflictScan new existing

/-- C3: for every conflict request, a start before 06:00 or an end after
21:00 yields the `school_hours` result; otherwise, any point of
`[start, end)` lying in `[12:00, 13:00)` yields the `lunch_break` result.
Both results are the same for every existing-schedules list, so the list
is never consulted. -/
theorem C3_prescreens (new : ScheduleData) (existing : List ScheduleData) :
    (new.start_time < 360 ∨ new.end_time > 1260 →
      check_schedule_conflict_logic new existing = (ConflictType.school_hours, none)) ∧
    (¬ (new.start_time < 360 ∨ new.end_time > 1260) →
      (∃ p, new.start_time ≤ p ∧ p < new.end_time ∧ 720 ≤ p ∧ p < 780) →
      check_schedule_conflict_logic new existing = (ConflictType.lunch_break, none)) := by
  constructor
  · intro h
    simp [check_schedule_conflict_logic, schoolStartMin, schoolEndMin, h]
  · intro h hlunch
    obtain ⟨p, hp1, hp2, hp3, hp4⟩ := hlunch
    have hcond : new.start_time < lunchEndMin ∧ new.end_time > lunchStartMin := by
      constructor
      · exact Nat.lt_of_le_of_lt hp1 hp4
      · exact Nat.lt_of_le_of_lt hp3 hp2
    simp [check_schedule_conflict_logic, schoolStartMin, schoolEndMin, h, hcond]

/-- Witness for C3: a 05:00-07:00 request is rejected as `school_hours` and
an 11:30-12:30 request as `lunch_break`, each against a nonempty existing
list. -/
theorem C3_prescreens_witness :
    (let newA : ScheduleData := ⟨"y", "t", "r", "i", ["Mon"], 300, 420⟩
     let ex : ScheduleData := ⟨"y", "t", "r", "i", ["Mon"], 480, 540⟩
     check_schedule_conflict_logic newA [ex] = (ConflictType.school_hours, none)) ∧
    (let newB : ScheduleData := ⟨"y", "t", "r", "i", ["Mon"], 690, 750⟩
     let ex : ScheduleData := ⟨"y", "t", "r", "i", ["Mon"], 480, 540⟩
     check_schedule_conflict_logic newB [ex] = (ConflictType.lunch_break, none)) := by
  constructor
  · exact (C3_prescreens ⟨"y", "t", "r", "i", ["Mon"], 300, 420⟩
      [⟨"y", "t", "r", "i", ["Mon"], 480, 540⟩]).1 (by decide)
  · exact (C3_prescreens ⟨"y", "t", "r", "i", ["Mon"], 690, 750⟩
      [⟨"y", "t", "r", "i", ["Mon"], 480, 540⟩]).2 (by decide) ⟨720, by decide, by decide, by decide, by decide⟩

/-! ## C2: conflict matching -/

/-- A record passes the four scan filters: same academic year and
trimester, at least one shared day, and overlapping `[start, end)` time
intervals. -/
def qualifies (new ex : ScheduleData) : Bool :=
  (ex.academic_year_id = new.academic_year_id ∧ ex.trimester_id = new.trimester_id : Bool)
    && ex.days.any (fun d => new.days.contains d)
    && (new.start_time < ex.end_time ∧ new.end_time > ex.start_time : Bool)

/-- A record actually raises a conflict: it passes the four filters and
additionally matches the new schedule's room or instructor. -/
def raisesConflict (new ex : ScheduleData) : Bool :=
  qualifies new ex && (ex.room_id = new.room_id ∨ ex.instructor_id = new.instructor_id : Bool)

/-- C2 counterexample: the first (and only) existing record passes all four
filters of the claim — same year, same trimester, shared day, overlapping
times — yet the function reports no conflict, because the record matches
neither the room nor the instructor of the new schedule. -/
theorem C2_first_qualifying_not_reported :
    let new : ScheduleData := ⟨"y", "t", "R1", "I1", ["Mon"], 480, 540⟩
    let ex : ScheduleData := ⟨"y", "t", "R2", "I2", ["Mon"], 480, 540⟩
    qualifies new ex = true ∧
    check_schedule_conflict_logic new [ex] = (ConflictType.hnone, none) := by
  decide

/-- The conflict scan returns the first record for which `raisesConflict`
holds, preferring the room tag when that record matches the room. -/
theorem conflictScan_eq_find (new : ScheduleData) (existing : List ScheduleData) :
    conflictScan new existing =
      match existing.find? (raisesConflict new) with
      | some ex =>
        if ex.room_id = new.room_id then (ConflictType.room, some ex)
        else (ConflictType.instructor, some ex)
      | none => (ConflictType.hnone, none) := by
  induction existing with
  | nil => rfl
  | cons ex rest ih =>
    by_cases hq : raisesConflict new ex = true
    · rw [List.find?_cons_of_pos _ hq]
      have hq' := hq
      simp only [raisesConflict, qualifies, Bool.and_eq_true, decide_eq_true_eq] at hq'
      obtain ⟨⟨⟨h1, h2⟩, h3⟩, h4⟩ := hq'
      simp only [conflictScan]
      rw [if_pos h1, if_pos h2, if_pos h3]
      by_cases h5 : ex.room_id = new.room_id
      · rw [if_pos h5, if_pos h5]
      · rw [if_neg h5, if_neg h5, if_pos (h4.resolve_left h5)]
    · rw [List.find?_cons_of_neg _ hq]
      rw [← ih]
      have hq' := hq
      simp only [raisesConflict, qualifies, Bool.and_eq_true, decide_eq_true_eq] at hq'
      simp only [conflictScan]
      by_cases h1 : ex.academic_year_id = new.academic_year_id ∧ ex.trimester_id = new.trimester_id
      · rw [if_pos h1]
        by_cases h2 : ex.days.any (fun d => new.days.contains d) = true
        · rw [if_pos h2]
          by_cases h3 : new.start_time < ex.end_time ∧ new.end_time > ex.start_time
          · rw [if_pos h3]
            have h4 : ¬ (ex.room_id = new.room_id ∨ ex.instructor_id = new.instructor_id) := by
              intro hcontra
              exact hq' ⟨⟨⟨h1, h2⟩, h3⟩, hcontra⟩
            push_neg at h4
            rw [if_neg h4.1, if_neg h4.2]
          · rw [if_neg h3]
        · rw [if_neg h2]
      · rw [if_neg h1]

/-- C2 (amended): after the pre-screens pass, the scan reports the first
record that passes the four filters and matches the room or the
instructor; for that record a room match is reported in preference to an
instructor match, records matching neither are skipped, and when no
record raises a conflict the result is the no-conflict value. -/
theorem C2_scan_first_hit (new : ScheduleData) (existing : List ScheduleData)
    (hs : ¬ (new.start_time < 360 ∨ new.end_time > 1260))
    (hl : ¬ (new.start_time < 780 ∧ new.end_time > 720)) :
    check_schedule_conflict_logic new existing =
      match existing.find? (raisesConflict new) with
      | some ex =>
        if ex.room_id = new.room_id then (ConflictType.room, some ex)
        else (ConflictType.instructor, some ex)
      | none => (ConflictType.hnone, none) := by
  have hs' : ¬ (new.start_time < schoolStartMin ∨ new.end_time > schoolEndMin) := by
    simpa [schoolStartMin, schoolEndMin] using hs
  have hl' : ¬ (new.start_time < lunchEndMin ∧ new.end_time > lunchStartMin) := by
    simpa [lunchStartMin, lunchEndMin] using hl
  have hmain : check_schedule_conflict_logic new existing = conflictScan new existing := by
    unfold check_schedule_conflict_logic
    rw [if_neg hs', if_neg hl']
  rw [hmain, conflictScan_eq_find]

/-- Witness for C2: a request passing both pre-screens whose second
existing record is the first to match the room, with the first record
skipped for matching neither resource. -/
theorem C2_scan_first_hit_witness :
    let new : ScheduleData := ⟨"y", "t", "R1", "I1", ["Mon"], 480, 540⟩
    let ex1 : ScheduleData := ⟨"y", "t", "R2", "I2", ["Mon"], 480, 540⟩
    let ex2 : ScheduleData := ⟨"y", "t", "R1", "I2", ["Mon"], 510, 570⟩
    check_schedule_conflict_logic new [ex1, ex2] =
      match [ex1, ex2].find? (raisesConflict new) with
      | some ex =>
        if ex.room_id = new.room_id then (ConflictType.room, some ex)
        else (ConflictType.instructor, some ex)
      | none => (ConflictType.hnone, none) :=
  C2_scan_first_hit ⟨"y", "t", "R1", "I1", ["Mon"], 480, 540⟩
    [⟨"y", "t", "R2", "I2", ["Mon"], 480, 540⟩, ⟨"y", "t", "R1", "I2", ["Mon"], 510, 570⟩]
    (by decide) (by decide)

/-! ## Pre-check (sched_AI.py `precheck_config`, validator.py `ConfigValidator.validate`) -/

/-- A subject, the 4-tuple `(code, title, duration, needs_lab)` of
sched_AI.py and the `Subject` model of models.py.  Durations arrive as
Python ints, hence `Int`. -/
structure Subject where
  code : String
  title : String
  duration : Int
  needs_lab : Bool
deriving DecidableEq, Repr

/-- A teacher dict of sched_AI.py / the `Teacher` model of models.py. -/
structure Teacher where
  id : Int
  name : String
  department : String
  can_teach : List String
deriving DecidableEq, Repr

/-- One entry of the pre-check error list, tagged by its `errors.append`
site; `uncovered` carries the subject code named in the message. -/
inductive PrecheckError where
  | sectionOverload
  | labCapacity
  | classroomCapacity
  | uncovered (code : String)
deriving DecidableEq, Repr

/-- Predicate for a subject code no teacher lists: `sc not in teacher_can
or len(teacher_can[sc]) == 0` in precheck_config, `not
teacher_map.get(s.code)` in the validator. -/
def noTeacherFor (teachers : List Teacher) (sc : String) : Bool :=
  ¬ teachers.any (fun t => t.can_teach.contains sc)

/-- `precheck_config` (sched_AI.py lines 84-113).  The subject-code set
`{s[0] for s in subjects}` is modelled by `dedup`; Python set iteration
order is arbitrary, and no theorem below depends on the order of the
coverage errors. -/
def precheck_config (sections : List String) (subjects : List Subject)
    (room_names : List String) (comlab_room_indices : List Int)
    (hours_per_day : Int) (days : List String) (teachers : List Teacher) :
    List PrecheckError :=
  let H : Int := hours_per_day * days.length
  let per_section_total : Int := (subjects.map (·.duration)).sum
  let e1 := if per_section_total > H then [PrecheckError.sectionOverload] else []
  let total_lab_hours_needed : Int :=
    ((subjects.filter (·.needs_lab)).map (·.duration)).sum * sections.length
  let lab_capacity : Int := (comlab_room_indices.length : Int) * H
  let e2 := if total_lab_hours_needed > lab_capacity then [PrecheckError.labCapacity] else []
  let nonlab_hours_needed : Int :=
    ((subjects.filter (fun s => ¬ s.needs_lab)).map (·.duration)).sum * sections.length
  let classroom_capacity : Int :=
    ((room_names.length : Int) - (comlab_room_indices.length : Int)) * H
  let e3 := if nonlab_hours_needed > classroom_capacity then [PrecheckError.classroomCapacity] else []
  let e4 := ((subjects.map (·.code)).dedup.filter (noTeacherFor teachers)).map PrecheckError.uncovered
  e1 ++ e2 ++ e3 ++ e4

/-- The `SchedulerConfig` model of models.py, consumed by the validator. -/
structure Config where
  sections : List String
  subjects : List Subject
  rooms : List String
  comlab_indices : List Int
  days : List String
  hours_per_day : Int
  teachers : List Teacher
  start_hour : Int := 8
deriving Repr

/-- `ConfigValidator.validate` (validator.py lines 9-40).  Identical
capacity formulas; the coverage loop runs over `subjects` directly, so a
duplicated uncovered code is reported once per occurrence. -/
def validate (config : Config) : List PrecheckError :=
  let total_hours : Int := config.hours_per_day * config.days.length
  let per_section_total : Int := (config.subjects.map (·.duration)).sum
  let e1 := if per_section_total > total_hours then [PrecheckError.sectionOverload] else []
  let total_lab : Int :=
    ((config.subjects.filter (·.needs_lab)).map (·.duration)).sum * config.sections.length
  let lab_capacity : Int := (config.comlab_indices.length : Int) * total_hours
  let e2 := if total_lab > lab_capacity then [PrecheckError.labCapacity] else []
  let total_nonlab : Int :=
    ((config.subjects.filter (fun s => ¬ s.needs_lab)).map (·.duration)).sum * config.sections.length
  let nonlab_capacity : Int :=
    ((config.rooms.length : Int) - (config.comlab_indices.length : Int)) * total_hours
  let e3 := if total_nonlab > nonlab_capacity then [PrecheckError.classroomCapacity] else []
  let e4 := (config.subjects.filter (fun s => noTeacherFor config.teachers s.code)).map
    (fun s => PrecheckError.uncovered s.code)
  e1 ++ e2 ++ e3 ++ e4

/-- C4 counterexample: two subjects share the uncovered code `"X"`; the
number of uncovered subjects is 2, but `precheck_config` iterates over
the set of codes and emits a single coverage error, so it does not emit
one error per uncovered subject. -/
theorem C4_dedup_coverage_counterexample :
    (precheck_config ["A"] [⟨"X", "t1", 1, false⟩, ⟨"X", "t2", 1, false⟩]
        ["R1"] [] 9 ["Mon"] []).length = 1 ∧
    ([⟨"X", "t1", 1, false⟩, ⟨"X", "t2", 1, false⟩] : List Subject).countP
        (fun s => noTeacherFor [] s.code) = 2 := by
  decide

/-- Arithmetic helper: a sum of three indicator values and a count is
positive exactly when one of the conditions holds or the count is
positive. -/
theorem pos_ite_sum_iff (p q r : Prop) [Decidable p] [Decidable q] [Decidable r] (n : Nat) :
    0 < ((if p then 1 else 0) + (if q then 1 else 0) + (if r then 1 else 0) + n) ↔
      p ∨ q ∨ r ∨ 0 < n := by
  by_cases hp : p <;> by_cases hq : q <;> by_cases hr : r <;> simp [hp, hq, hr]

/-- C4 (amended): both pre-checks return a nonempty error list exactly when
one of the four infeasibility conditions holds, and emit one error per
capacity condition that holds; for coverage, `precheck_config` emits one
error per distinct uncovered subject code, while
`ConfigValidator.validate` emits one per uncovered subject occurrence. -/
theorem C4_precheck_characterization (sections : List String) (subjects : List Subject)
    (room_names : List String) (comlab_room_indices : List Int)
    (hours_per_day : Int) (days : List String) (teachers : List Teacher) :
    (precheck_config sections subjects room_names comlab_room_indices hours_per_day days teachers
        ≠ [] ↔
      (subjects.map (·.duration)).sum > hours_per_day * days.length ∨
      ((subjects.filter (·.needs_lab)).map (·.duration)).sum * sections.length >
        (comlab_room_indices.length : Int) * (hours_per_day * days.length) ∨
      ((subjects.filter (fun s => ¬ s.needs_lab)).map (·.duration)).sum * sections.length >
        ((room_names.length : Int) - (comlab_room_indices.length : Int)) *
          (hours_per_day * days.length) ∨
      ∃ s ∈ subjects, noTeacherFor teachers s.code = true) ∧
    (precheck_config sections subjects room_names comlab_room_indices hours_per_day days
        teachers).length =
      (if (subjects.map (·.duration)).sum > hours_per_day * days.length then 1 else 0) +
      (if ((subjects.filter (·.needs_lab)).map (·.duration)).sum * sections.length >
          (comlab_room_indices.length : Int) * (hours_per_day * days.length) then 1 else 0) +
      (if ((subjects.filter (fun s => ¬ s.needs_lab)).map (·.duration)).sum * sections.length >
          ((room_names.length : Int) - (comlab_room_indices.length : Int)) *
            (hours_per_day * days.length) then 1 else 0) +
      (subjects.map (·.code)).dedup.countP (noTeacherFor teachers) ∧
    (validate ⟨sections, subjects, room_names, comlab_room_indices, days, hours_per_day,
        teachers, 8⟩ ≠ [] ↔
      (subjects.map (·.duration)).sum > hours_per_day * days.length ∨
      ((subjects.filter (·.needs_lab)).map (·.duration)).sum * sections.length >
        (comlab_room_indices.length : Int) * (hours_per_day * days.length) ∨
      ((subjects.filter (fun s => ¬ s.needs_lab)).map (·.duration)).sum * sections.length >
        ((room_names.length : Int) - (comlab_room_indices.length : Int)) *
          (hours_per_day * days.length) ∨
      ∃ s ∈ subjects, noTeacherFor teachers s.code = true) ∧
    (validate ⟨sections, subjects, room_names, comlab_room_indices, days, hours_per_day,
        teachers, 8⟩).length =
      (if (subjects.map (·.duration)).sum > hours_per_day * days.length then 1 else 0) +
      (if ((subjects.filter (·.needs_lab)).map (·.duration)).sum * sections.length >
          (comlab_room_indices.length : Int) * (hours_per_day * days.length) then 1 else 0) +
      (if ((subjects.filter (fun s => ¬ s.needs_lab)).map (·.duration)).sum * sections.length >
          ((room_names.length : Int) - (comlab_room_indices.length : Int)) *
            (hours_per_day * days.length) then 1 else 0) +
      subjects.countP (fun s => noTeacherFor teachers s.code) := by
  have hmemdedup : (∃ c ∈ (subjects.map (·.code)).dedup, noTeacherFor teachers c = true) ↔
      ∃ s ∈ subjects, noTeacherFor teachers s.code = true := by
    constructor
    · rintro ⟨c, hc, hp⟩
      rw [List.mem_dedup, List.mem_map] at hc
      obtain ⟨s, hs, rfl⟩ := hc
      exact ⟨s, hs, hp⟩
    · rintro ⟨s, hs, hp⟩
      exact ⟨s.code, by rw [List.mem_dedup, List.mem_map]; exact ⟨s, hs, rfl⟩, hp⟩
  have hlenP : (precheck_config sections subjects room_names comlab_room_indices hours_per_day
      days teachers).length =
      (if (subjects.map (·.duration)).sum > hours_per_day * days.length then 1 else 0) +
      (if ((subjects.filter (·.needs_lab)).map (·.duration)).sum * sections.length >
          (comlab_room_indices.length : Int) * (hours_per_day * days.length) then 1 else 0) +
      (if ((subjects.filter (fun s => ¬ s.needs_lab)).map (·.duration)).sum * sections.length >
          ((room_names.length : Int) - (comlab_room_indices.length : Int)) *
            (hours_per_day * days.length) then 1 else 0) +
      (subjects.map (·.code)).dedup.countP (noTeacherFor teachers) := by
    simp only [precheck_config, List.length_append, apply_ite List.length,
      List.length_cons, List.length_nil, List.length_map,
      ← List.countP_eq_length_filter]
  have hlenV : (validate ⟨sections, subjects, room_names, comlab_room_indices, days,
      hours_per_day, teachers, 8⟩).length =
      (if (subjects.map (·.duration)).sum > hours_per_day * days.length then 1 else 0) +
      (if ((subjects.filter (·.needs_lab)).map (·.duration)).sum * sections.length >
          (comlab_room_indices.length : Int) * (hours_per_day * days.length) then 1 else 0) +
      (if ((subjects.filter (fun s => ¬ s.needs_lab)).map (·.duration)).sum * sections.length >
          ((room_names.length : Int) - (comlab_room_indices.length : Int)) *
            (hours_per_day * days.length) then 1 else 0) +
      subjects.countP (fun s => noTeacherFor teachers s.code) := by
    simp only [validate, List.length_append, apply_ite List.length,
      List.length_cons, List.length_nil, List.length_map,
      ← List.countP_eq_length_filter]
  have hcpP : (0 < (subjects.map (·.code)).dedup.countP (noTeacherFor teachers)) ↔
      (∃ s ∈ subjects, noTeacherFor teachers s.code = true) := by
    rw [List.countP_pos_iff]
    exact hmemdedup
  have hcpV : (0 < subjects.countP (fun s => noTeacherFor teachers s.code)) ↔
      (∃ s ∈ subjects, noTeacherFor teachers s.code = true) := by
    rw [List.countP_pos_iff]
  refine ⟨?_, hlenP, ?_, hlenV⟩
  · rw [← List.length_pos, hlenP, ← hcpP]
    exact pos_ite_sum_iff _ _ _ _
  · rw [← List.length_pos, hlenV, ← hcpV]
    exact pos_ite_sum_iff _ _ _ _

/-! ## C5: the pre-check gates the solver -/

/-- `build_and_solve` (sched_AI.py lines 118-305), up to the point the CP
model is constructed: the pre-check runs first and a nonempty error list
raises `ValueError` with those errors.  Everything after the gate — model
construction, solving and extraction — is abstracted as the value
`rest`, so a result independent of `rest` shows the solver is never
constructed or invoked. -/
def build_and_solve {α : Type} (rest : α) (sections : List String) (subjects : List Subject)
    (room_names : List String) (comlab_room_indices : List Int) (days : List String)
    (teachers : List Teacher) (hours_per_day_local : Int) :
    Except (List PrecheckError) α :=
  let pre_errors := precheck_config sections subjects room_names comlab_room_indices
    hours_per_day_local days teachers
  if pre_errors = [] then Except.ok rest else Except.error pre_errors

/-- `generate_schedule` (api.py lines 9-21): the validator runs first and a
nonempty error list raises `HTTPException` with status 400 carrying the
errors; the solver pipeline after the gate is abstracted as `rest`. -/
def api_generate_schedule {α : Type} (rest : α) (config : Config) :
    Except (Nat × List PrecheckError) α :=
  let errors := validate config
  if errors = [] then Except.ok rest else Except.error (400, errors)

/-- C5: whenever the pre-check reports at least one error, `build_and_solve`
fails with exactly those errors with a result independent of the solver
stage, and the API gate fails with HTTP 400 carrying the validator's
errors, likewise independent of the solver stage; so the solver is never
constructed or invoked. -/
theorem C5_precheck_gates_solver {α : Type} (r1 r2 : α) (sections : List String)
    (subjects : List Subject) (room_names : List String) (comlab_room_indices : List Int)
    (days : List String) (teachers : List Teacher) (hours_per_day : Int) (config : Config) :
    (precheck_config sections subjects room_names comlab_room_indices hours_per_day days
        teachers ≠ [] →
      build_and_solve r1 sections subjects room_names comlab_room_indices days teachers
          hours_per_day =
        Except.error (precheck_config sections subjects room_names comlab_room_indices
          hours_per_day days teachers) ∧
      build_and_solve r1 sections subjects room_names comlab_room_indices days teachers
          hours_per_day =
        build_and_solve r2 sections subjects room_names comlab_room_indices days teachers
          hours_per_day) ∧
    (validate config ≠ [] →
      api_generate_schedule r1 config = Except.error (400, validate config) ∧
      api_generate_schedule r1 config = api_generate_schedule r2 config) := by
  constructor
  · intro h
    unfold build_and_solve
    rw [if_neg h, if_neg h]
    exact ⟨rfl, rfl⟩
  · intro h
    unfold api_generate_schedule
    rw [if_neg h, if_neg h]
    exact ⟨rfl, rfl⟩

/-- Witness for C5: a configuration with one subject and no teachers fails
the coverage pre-check, so both gates return errors for any two distinct
solver stages. -/
theorem C5_precheck_gates_solver_witness :
    (build_and_solve (0 : Nat) ["A"] [⟨"X", "t", 1, false⟩] ["R1"] [] ["Mon"] [] 9 =
      Except.error (precheck_config ["A"] [⟨"X", "t", 1, false⟩] ["R1"] [] 9 ["Mon"] []) ∧
      build_and_solve (0 : Nat) ["A"] [⟨"X", "t", 1, false⟩] ["R1"] [] ["Mon"] [] 9 =
      build_and_solve (1 : Nat) ["A"] [⟨"X", "t", 1, false⟩] ["R1"] [] ["Mon"] [] 9) ∧
    (api_generate_schedule (0 : Nat) ⟨["A"], [⟨"X", "t", 1, false⟩], ["R1"], [], ["Mon"], 9, [], 8⟩ =
      Except.error (400, validate ⟨["A"], [⟨"X", "t", 1, false⟩], ["R1"], [], ["Mon"], 9, [], 8⟩) ∧
      api_generate_schedule (0 : Nat) ⟨["A"], [⟨"X", "t", 1, false⟩], ["R1"], [], ["Mon"], 9, [], 8⟩ =
      api_generate_schedule (1 : Nat) ⟨["A"], [⟨"X", "t", 1, false⟩], ["R1"], [], ["Mon"], 9, [], 8⟩) := by
  have h := C5_precheck_gates_solver (0 : Nat) (1 : Nat) ["A"] [⟨"X", "t", 1, false⟩] ["R1"] []
    ["Mon"] [] 9 ⟨["A"], [⟨"X", "t", 1, false⟩], ["R1"], [], ["Mon"], 9, [], 8⟩
  exact ⟨h.1 (by decide), h.2 (by decide)⟩

/-! ## Assignment service (services/assignment_service.py) -/

/-- The `Course` model (models/scheduling_model.py lines 8-14). -/
structure Course where
  id : String
  name : String
  units : Int
  dept_id : String
  trimester_id : String
  academic_years_id : String
deriving DecidableEq, Repr

/-- The `Instructor` model (models/scheduling_model.py lines 17-21). -/
structure Instructor where
  id : String
  user_id : String
  dept_id : String
  max_load : Int := 12
deriving DecidableEq, Repr

/-- The `CourseAssignment` model (models/scheduling_model.py lines 23-25):
only a course id and an instructor id, no `room_id`. -/
structure CourseAssignment where
  course_id : String
  instructor_id : String
deriving DecidableEq, Repr

/-- Helper for `dedupByUser`: `seen` is the set of `user_id` keys already
in the dict. -/
def dedupByUserGo (seen : List String) : List Instructor → List Instructor
  | [] => []
  | i :: rest =>
    if seen.contains i.user_id then dedupByUserGo seen rest
    else i :: dedupByUserGo (i.user_id :: seen) rest

/-- Deduplication of instructors by `user_id` keeping the first occurrence
(assignment_service.py lines 13-25); `user_id` is a required model field,
so the `getattr` fallback to `id` never fires. -/
def dedupByUser (l : List Instructor) : List Instructor :=
  dedupByUserGo [] l

/-- Extraction loop of `_assign_department_courses` (assignment_service.py
lines 81-86): for each course in order, one `CourseAssignment` per
department instructor whose assignment variable is true in the solver
output `b` (a function of the course id and instructor id, exactly as the
variables are keyed). -/
def assignDept (b : String → String → Bool) (dinsts : List Instructor) :
    List Course → List CourseAssignment
  | [] => []
  | c :: rest =>
    (dinsts.filter (fun i => b c.id i.id)).map (fun i => ⟨c.id, i.id⟩) ++
      assignDept b dinsts rest

/-- Department loop of `assign_courses` (assignment_service.py lines
34-40): departments are visited in order of first occurrence among the
courses, departments with no instructors are skipped. -/
def assignLoop (b : String → String → Bool) (courses : List Course)
    (insts : List Instructor) : List String → List CourseAssignment
  | [] => []
  | d :: ds =>
    (if (insts.filter (fun i => i.dept_id = d)).isEmpty then []
     else assignDept b (insts.filter (fun i => i.dept_id = d))
       (courses.filter (fun c => c.dept_id = d))) ++
      assignLoop b courses insts ds

/-- `AssignmentService.assign_courses` (assignment_service.py lines 11-42)
with the per-department CP solves abstracted into the single boolean
valuation `b`. -/
def assign_courses (b : String → String → Bool) (courses : List Course)
    (instructors : List Instructor) : List CourseAssignment :=
  assignLoop b courses (dedupByUser instructors) ((courses.map (·.dept_id)).dedup)

/-- The constraint the source posts on each per-department model
(assignment_service.py lines 60-62): over the department's instructor
list, exactly one assignment variable per course is true.  Duplicate
instructor ids contribute the same variable once per list entry, exactly
as the Python `sum` does. -/
def modelSat (b : String → String → Bool) (courses : List Course)
    (instructors : List Instructor) : Prop :=
  ∀ c ∈ courses,
    (dedupByUser instructors).filter (fun i => i.dept_id = c.dept_id) ≠ [] →
    ((dedupByUser instructors).filter
      (fun i => i.dept_id = c.dept_id)).countP (fun i => b c.id i.id) = 1

/-- Total units assigned to instructor `i`: the sum over the produced
assignments with that instructor of the units of the assigned course
(`total_units` in assignment_service.py lines 64-68, evaluated on the
extracted assignment list). -/
def totalLoad (courses : List Course) (out : List CourseAssignment) (i : String) : Int :=
  ((out.filter (fun a => a.instructor_id = i)).map
    (fun a => ((courses.find? (fun c => c.id = a.course_id)).map (·.units)).getD 0)).sum

/-- C6: no constraint bounds an instructor's load by `max_load`; with one
instructor of maximal load 12 in the department and two courses of 8 and
7 units, every solver valuation satisfying the posted constraints assigns
both courses to that instructor, for a total load of 15 > 12. -/
theorem C6_max_load_not_enforced (b : String → String → Bool)
    (hsat : modelSat b
      [⟨"c1", "N1", 8, "D", "T", "Y"⟩, ⟨"c2", "N2", 7, "D", "T", "Y"⟩]
      [⟨"i1", "u1", "D", 12⟩]) :
    totalLoad [⟨"c1", "N1", 8, "D", "T", "Y"⟩, ⟨"c2", "N2", 7, "D", "T", "Y"⟩]
      (assign_courses b
        [⟨"c1", "N1", 8, "D", "T", "Y"⟩, ⟨"c2", "N2", 7, "D", "T", "Y"⟩]
        [⟨"i1", "u1", "D", 12⟩]) "i1" = 15 ∧
    ¬ (15 : Int) ≤ (Instructor.mk "i1" "u1" "D" 12).max_load := by
  have hb1 : b "c1" "i1" = true := by
    have h1 := hsat ⟨"c1", "N1", 8, "D", "T", "Y"⟩ (by simp) (by decide)
    cases hb : b "c1" "i1" with
    | false => simp [dedupByUser, dedupByUserGo, List.countP_cons, hb] at h1
    | true => rfl
  have hb2 : b "c2" "i1" = true := by
    have h2 := hsat ⟨"c2", "N2", 7, "D", "T", "Y"⟩ (by simp) (by decide)
    cases hb : b "c2" "i1" with
    | false => simp [dedupByUser, dedupByUserGo, List.countP_cons, hb] at h2
    | true => rfl
  have hout : assign_courses b
      [⟨"c1", "N1", 8, "D", "T", "Y"⟩, ⟨"c2", "N2", 7, "D", "T", "Y"⟩]
      [⟨"i1", "u1", "D", 12⟩] =
      [⟨"c1", "i1"⟩, ⟨"c2", "i1"⟩] := by
    simp [assign_courses, assignLoop, assignDept, dedupByUser, dedupByUserGo,
      List.dedup, hb1, hb2]
  rw [hout]
  constructor
  · decide
  · decide

/-- Witness for C6: the all-true valuation satisfies the posted constraints
on this department, so the overload is realizable. -/
theorem C6_max_load_not_enforced_witness :
    totalLoad [⟨"c1", "N1", 8, "D", "T", "Y"⟩, ⟨"c2", "N2", 7, "D", "T", "Y"⟩]
      (assign_courses (fun _ _ => true)
        [⟨"c1", "N1", 8, "D", "T", "Y"⟩, ⟨"c2", "N2", 7, "D", "T", "Y"⟩]
        [⟨"i1", "u1", "D", 12⟩]) "i1" = 15 ∧
    ¬ (15 : Int) ≤ (Instructor.mk "i1" "u1" "D" 12).max_load :=
  C6_max_load_not_enforced (fun _ _ => true) (by unfold modelSat; decide)

/-- A course id appearing in no course of the list produces no assignment
entries in the department extraction. -/
theorem assignDept_countP_zero (b : String → String → Bool) (dinsts : List Instructor)
    (c : Course) : ∀ cs : List Course, c.id ∉ cs.map (·.id) →
    (assignDept b dinsts cs).countP (fun a => a.course_id = c.id) = 0 := by
  intro cs
  induction cs with
  | nil => intro _; rfl
  | cons c' rest ih =>
    intro hnot
    have hne : ¬ (c'.id = c.id) := fun h => hnot (by simp [h])
    have htail : c.id ∉ rest.map (·.id) := fun h => hnot (List.mem_cons_of_mem _ h)
    simp only [assignDept, List.countP_append, ih htail, Nat.add_zero]
    rw [List.countP_map]
    exact List.countP_eq_zero.mpr (fun i _ => by simpa using hne)

/-- With distinct course ids, the department extraction contributes, for a
member course, exactly one entry per department instructor whose
assignment variable is true. -/
theorem assignDept_countP_eq (b : String → String → Bool) (dinsts : List Instructor)
    (c : Course) : ∀ cs : List Course, c ∈ cs → (cs.map (·.id)).Nodup →
    (assignDept b dinsts cs).countP (fun a => a.course_id = c.id) =
      dinsts.countP (fun i => b c.id i.id) := by
  intro cs
  induction cs with
  | nil => intro h; cases h
  | cons c' rest ih =>
    intro hin hnd
    simp only [List.map_cons, List.nodup_cons] at hnd
    simp only [assignDept, List.countP_append]
    rcases List.mem_cons.mp hin with rfl | hmem
    · have htail : (assignDept b dinsts rest).countP (fun a => a.course_id = c.id) = 0 :=
        assignDept_countP_zero b dinsts c rest hnd.1
      rw [htail, Nat.add_zero, List.countP_map]
      refine Eq.trans (List.countP_eq_length.mpr (fun i _ => ?_))
        (List.countP_eq_length_filter _ _).symm
      simp
    · have hne : ¬ (c'.id = c.id) := by
        intro h
        exact hnd.1 (h ▸ List.mem_map.mpr ⟨c, hmem, rfl⟩)
      have hhead : ((dinsts.filter (fun i => b c'.id i.id)).map
          (fun i => (⟨c'.id, i.id⟩ : CourseAssignment))).countP
          (fun a => a.course_id = c.id) = 0 := by
        rw [List.countP_map]
        exact List.countP_eq_zero.mpr (fun i _ => by simpa using hne)
      rw [hhead, Nat.zero_add]
      exact ih hmem hnd.2

/-- Every entry the department extraction produces pairs a course of the
department list with an instructor of the department list. -/
theorem assignDept_mem (b : String → String → Bool) (dinsts : List Instructor)
    (cs : List Course) : ∀ a ∈ assignDept b dinsts cs,
    ∃ c' ∈ cs, ∃ i ∈ dinsts, a = ⟨c'.id, i.id⟩ := by
  induction cs with
  | nil => intro a ha; cases ha
  | cons c' rest ih =>
    intro a ha
    simp only [assignDept, List.mem_append] at ha
    rcases ha with ha | ha
    · simp only [List.mem_map, List.mem_filter] at ha
      obtain ⟨i, ⟨hi, _⟩, rfl⟩ := ha
      exact ⟨c', List.mem_cons_self _ _, i, hi, rfl⟩
    · obtain ⟨c'', hc'', i, hi, rfl⟩ := ih a ha
      exact ⟨c'', List.mem_cons_of_mem _ hc'', i, hi, rfl⟩

/-- A department block other than the course's own department contributes
no entry for that course when course ids are distinct. -/
theorem assignBlock_countP_zero (b : String → String → Bool) (courses : List Course)
    (insts : List Instructor) (c : Course) (hid : (courses.map (·.id)).Nodup)
    (hc : c ∈ courses) (d : String) (hne : d ≠ c.dept_id) :
    ((if (insts.filter (fun i => i.dept_id = d)).isEmpty then []
      else assignDept b (insts.filter (fun i => i.dept_id = d))
        (courses.filter (fun x => x.dept_id = d))).countP
      (fun a => a.course_id = c.id)) = 0 := by
  by_cases hemp : (insts.filter (fun i => i.dept_id = d)).isEmpty
  · rw [if_pos hemp]
    rfl
  · rw [if_neg hemp]
    apply assignDept_countP_zero
    intro hmem
    obtain ⟨c'', hc'', hcid⟩ := List.mem_map.mp hmem
    obtain ⟨hcin, hdept⟩ := List.mem_filter.mp hc''
    have heq : c'' = c := List.inj_on_of_nodup_map hid hcin hc hcid
    subst heq
    have hd : c''.dept_id = d := by simpa using hdept
    exact hne hd.symm

/-- The department loop produces no entry for a course whose department is
not among the visited keys. -/
theorem assignLoop_countP_zero (b : String → String → Bool) (courses : List Course)
    (insts : List Instructor) (c : Course) (hid : (courses.map (·.id)).Nodup)
    (hc : c ∈ courses) : ∀ ds : List String, c.dept_id ∉ ds →
    (assignLoop b courses insts ds).countP (fun a => a.course_id = c.id) = 0 := by
  intro ds
  induction ds with
  | nil => intro _; rfl
  | cons d rest ih =>
    intro hnot
    have hne : d ≠ c.dept_id := fun h => hnot (by simp [h])
    have htail : c.dept_id ∉ rest := fun h => hnot (List.mem_cons_of_mem _ h)
    simp only [assignLoop, List.countP_append, ih htail, Nat.add_zero]
    exact assignBlock_countP_zero b courses insts c hid hc d hne

/-- With distinct course ids and distinct department keys containing the
course's department, the department loop produces, for that course,
exactly the entries of its own department block. -/
theorem assignLoop_countP_mem (b : String → String → Bool) (courses : List Course)
    (insts : List Instructor) (c : Course) (hid : (courses.map (·.id)).Nodup)
    (hc : c ∈ courses) : ∀ ds : List String, ds.Nodup → c.dept_id ∈ ds →
    (assignLoop b courses insts ds).countP (fun a => a.course_id = c.id) =
      (if (insts.filter (fun i => i.dept_id = c.dept_id)).isEmpty then 0
       else (insts.filter (fun i => i.dept_id = c.dept_id)).countP (fun i => b c.id i.id)) := by
  intro ds
  induction ds with
  | nil => intro _ h; cases h
  | cons d rest ih =>
    intro hnd hmem
    simp only [List.nodup_cons] at hnd
    simp only [assignLoop, List.countP_append]
    rcases List.mem_cons.mp hmem with rfl | hmem'
    · have htail : (assignLoop b courses insts rest).countP
          (fun a => a.course_id = c.id) = 0 :=
        assignLoop_countP_zero b courses insts c hid hc rest hnd.1
      rw [htail, Nat.add_zero]
      by_cases hemp : (insts.filter (fun i => i.dept_id = c.dept_id)).isEmpty
      · rw [if_pos hemp, if_pos hemp]
        rfl
      · rw [if_neg hemp, if_neg hemp]
        apply assignDept_countP_eq
        · exact List.mem_filter.mpr ⟨hc, by simp⟩
        · exact hid.sublist ((List.filter_sublist courses).map (·.id))
    · have hne : d ≠ c.dept_id := fun h => hnd.1 (h ▸ hmem')
      rw [assignBlock_countP_zero b courses insts c hid hc d hne, Nat.zero_add]
      exact ih hnd.2 hmem'

/-- Every entry the department loop produces pairs a course with an
instructor of the same department. -/
theorem assignLoop_mem (b : String → String → Bool) (courses : List Course)
    (insts : List Instructor) : ∀ ds : List String, ∀ a ∈ assignLoop b courses insts ds,
    ∃ c' ∈ courses, ∃ i ∈ insts, a = ⟨c'.id, i.id⟩ ∧ i.dept_id = c'.dept_id := by
  intro ds
  induction ds with
  | nil => intro a ha; cases ha
  | cons d rest ih =>
    intro a ha
    simp only [assignLoop, List.mem_append] at ha
    rcases ha with ha | ha
    · by_cases hemp : (insts.filter (fun i => i.dept_id = d)).isEmpty
      · rw [if_pos hemp] at ha
        cases ha
      · rw [if_neg hemp] at ha
        obtain ⟨c', hc', i, hi, rfl⟩ :=
          assignDept_mem b (insts.filter (fun i => i.dept_id = d))
            (courses.filter (fun x => x.dept_id = d)) a ha
        obtain ⟨hcin, hcdept⟩ := List.mem_filter.mp hc'
        obtain ⟨hiin, hidept⟩ := List.mem_filter.mp hi
        refine ⟨c', hcin, i, hiin, rfl, ?_⟩
        have h1 : i.dept_id = d := by simpa using hidept
        have h2 : c'.dept_id = d := by simpa using hcdept
        rw [h1, h2]
    · exact ih a ha

/-- C7: with distinct course ids and a solver valuation meeting the posted
exactly-one constraints, every course whose department has at least one
deduplicated instructor appears in exactly one produced assignment, paired
with a deduplicated instructor of the same department, and every course
whose department has no instructor appears in none. -/
theorem C7_assignment_coverage (b : String → String → Bool) (courses : List Course)
    (instructors : List Instructor) (hid : (courses.map (·.id)).Nodup)
    (hsat : modelSat b courses instructors) :
    ∀ c ∈ courses,
      ((dedupByUser instructors).filter (fun i => i.dept_id = c.dept_id) ≠ [] →
        (assign_courses b courses instructors).countP (fun a => a.course_id = c.id) = 1 ∧
        ∀ a ∈ assign_courses b courses instructors, a.course_id = c.id →
          ∃ i ∈ dedupByUser instructors, a.instructor_id = i.id ∧ i.dept_id = c.dept_id) ∧
      ((dedupByUser instructors).filter (fun i => i.dept_id = c.dept_id) = [] →
        (assign_courses b courses instructors).countP (fun a => a.course_id = c.id) = 0) := by
  intro c hc
  have hdmem : c.dept_id ∈ (courses.map (·.dept_id)).dedup :=
    List.mem_dedup.mpr (List.mem_map.mpr ⟨c, hc, rfl⟩)
  have hcount := assignLoop_countP_mem b courses (dedupByUser instructors) c hid hc
    ((courses.map (·.dept_id)).dedup) (List.nodup_dedup _) hdmem
  constructor
  · intro hcov
    have hemp : ¬ ((dedupByUser instructors).filter
        (fun i => i.dept_id = c.dept_id)).isEmpty := by
      simpa [List.isEmpty_iff] using hcov
    constructor
    · rw [assign_courses, hcount, if_neg hemp]
      exact hsat c hc hcov
    · intro a ha haid
      unfold assign_courses at ha
      obtain ⟨c', hc', i, hi, rfl, hdept⟩ :=
        assignLoop_mem b courses (dedupByUser instructors)
          ((courses.map (·.dept_id)).dedup) a ha
      have hcc : c' = c := List.inj_on_of_nodup_map hid hc' hc (by simpa using haid)
      subst hcc
      exact ⟨i, hi, rfl, hdept⟩
  · intro hcov
    have hemp : ((dedupByUser instructors).filter
        (fun i => i.dept_id = c.dept_id)).isEmpty := by
      simp [List.isEmpty_iff, hcov]
    rw [assign_courses, hcount, if_pos hemp]

/-- Witness for C7: two courses in two departments, one instructor covering
the first department, under the all-true valuation: the first course gets
exactly one same-department assignment and the second none. -/
theorem C7_assignment_coverage_witness :
    (let courses : List Course :=
      [⟨"c1", "N1", 3, "D1", "T", "Y"⟩, ⟨"c2", "N2", 3, "D2", "T", "Y"⟩]
     let instructors : List Instructor := [⟨"i1", "u1", "D1", 12⟩]
     ∀ c ∈ courses,
      ((dedupByUser instructors).filter (fun i => i.dept_id = c.dept_id) ≠ [] →
        (assign_courses (fun _ _ => true) courses instructors).countP
          (fun a => a.course_id = c.id) = 1 ∧
        ∀ a ∈ assign_courses (fun _ _ => true) courses instructors, a.course_id = c.id →
          ∃ i ∈ dedupByUser instructors, a.instructor_id = i.id ∧ i.dept_id = c.dept_id) ∧
      ((dedupByUser instructors).filter (fun i => i.dept_id = c.dept_id) = [] →
        (assign_courses (fun _ _ => true) courses instructors).countP
          (fun a => a.course_id = c.id) = 0)) :=
  C7_assignment_coverage (fun _ _ => true)
    [⟨"c1", "N1", 3, "D1", "T", "Y"⟩, ⟨"c2", "N2", 3, "D2", "T", "Y"⟩]
    [⟨"i1", "u1", "D1", 12⟩] (by decide) (by unfold modelSat; decide)

/-! ## Schedule service (services/schedule_service.py) -/

/-- A Python exception class raised by `generate_schedule`. -/
inductive PyErr where
  | valueError
  | attributeError
  | indexError
deriving DecidableEq, Repr

/-- Python list indexing `l[i]`: negative indices count from the end, and
an index outside `[-len, len)` raises `IndexError`. -/
def pyIndex {α : Type} (l : List α) (i : Int) : Except PyErr α :=
  let j : Int := if i < 0 then i + l.length else i
  if 0 ≤ j ∧ j < l.length then
    match l.get? j.toNat with
    | some x => Except.ok x
    | none => Except.error PyErr.indexError
  else Except.error PyErr.indexError

/-- In-range indices always succeed. -/
theorem pyIndex_ok {α : Type} (l : List α) (i : Int) (h1 : -(l.length : Int) ≤ i)
    (h2 : i < l.length) : ∃ x, pyIndex l i = Except.ok x := by
  unfold pyIndex
  by_cases hneg : i < 0
  · have hj : (0 ≤ i + (l.length : Int) ∧ i + (l.length : Int) < l.length) := by omega
    have hlt : (i + (l.length : Int)).toNat < l.length := by omega
    simp only [if_pos hneg, if_pos hj]
    rw [List.get?_eq_get hlt]
    exact ⟨_, rfl⟩
  · have hj : (0 ≤ i ∧ i < (l.length : Int)) := by omega
    have hlt : i.toNat < l.length := by omega
    simp only [if_neg hneg, if_pos hj]
    rw [List.get?_eq_get hlt]
    exact ⟨_, rfl⟩

/-- `generate_weekly_timeslots` (schedule_service.py lines 10-24): one-hour
slots Monday to Saturday between the start and end hours; the source
carries the times as formatted strings, modelled here as hour numbers. -/
def generate_weekly_timeslots (start_hour end_hour : Nat) : List (String × Nat × Nat) :=
  (["monday", "tuesday", "wednesday", "thursday", "friday", "saturday"].map (fun day =>
    (List.range (end_hour - start_hour)).map
      (fun k => (day, start_hour + k, start_hour + k + 1)))).flatten

/-- An entry of the schedule list `generate_schedule` tries to build; its
`room_id` field can never be filled because `CourseAssignment` has no
`room_id` attribute. -/
structure ScheduleOut where
  course_id : String
  room_id : String
  instructor_id : String
  timeslot : String
deriving DecidableEq, Repr

/-- The loop of `ScheduleService.generate_schedule` (schedule_service.py
lines 26-61): assignments without a matching course are skipped; a
matching course first passes the capacity check (`ValueError` on
failure), then the two timeslot index lookups (Python `IndexError` when
out of range), and then the entry construction reads `assign.room_id`,
an attribute `CourseAssignment` does not define, raising
`AttributeError`. -/
def schedLoop (courses : List Course) :
    List CourseAssignment → Int → List ScheduleOut → Except PyErr (List ScheduleOut)
  | [], _, schedule => Except.ok schedule
  | a :: rest, slot_index, schedule =>
    match courses.find? (fun c => c.id = a.course_id) with
    | none => schedLoop courses rest slot_index schedule
    | some course =>
      if slot_index + course.units > ((generate_weekly_timeslots 7 17).length : Int) then
        Except.error PyErr.valueError
      else
        match pyIndex (generate_weekly_timeslots 7 17) slot_index with
        | Except.error e => Except.error e
        | Except.ok _ =>
          match pyIndex (generate_weekly_timeslots 7 17)
              (slot_index + course.units - 1) with
          | Except.error e => Except.error e
          | Except.ok _ => Except.error PyErr.attributeError

/-- `ScheduleService.generate_schedule` (schedule_service.py lines 26-61). -/
def service_generate_schedule (assignments : List CourseAssignment)
    (courses : List Course) : Except PyErr (List ScheduleOut) :=
  schedLoop courses assignments 0 []

/-- The loop can only return the schedule it was given. -/
theorem schedLoop_ok (courses : List Course) :
    ∀ (assignments : List CourseAssignment) (si : Int) (sch l : List ScheduleOut),
    schedLoop courses assignments si sch = Except.ok l → l = sch := by
  intro assignments
  induction assignments with
  | nil =>
    intro si sch l h
    simpa [schedLoop] using h.symm
  | cons a rest ih =>
    intro si sch l h
    simp only [schedLoop] at h
    split at h
    · exact ih _ _ _ h
    · split at h
      · cases h
      · split at h
        · cases h
        · split at h
          · cases h
          · cases h

/-- C10 counterexample: the claim fails as stated.  First input: the single
assignment matches a listed course of `-100` units, the capacity check
passes (`0 + (-100) > 60` is false), yet the end-slot lookup
`timeslots[-101]` raises `IndexError`, not `AttributeError`.  Second
input: some assignment (the second) matches a course passing the
capacity check, but the first matching assignment's 100-unit course
fails it, so the function raises `ValueError`. -/
theorem C10_not_always_attribute_error :
    service_generate_schedule [⟨"c1", "i1"⟩] [⟨"c1", "n", -100, "D", "T", "Y"⟩] =
      Except.error PyErr.indexError ∧
    (∃ a ∈ [(⟨"big", "i1"⟩ : CourseAssignment), ⟨"c1", "i1"⟩],
      ∃ c ∈ [(⟨"big", "n", 100, "D", "T", "Y"⟩ : Course), ⟨"c1", "n", 1, "D", "T", "Y"⟩],
        c.id = a.course_id ∧ (0 : Int) + c.units ≤ 60) ∧
    service_generate_schedule [⟨"big", "i1"⟩, ⟨"c1", "i1"⟩]
      [⟨"big", "n", 100, "D", "T", "Y"⟩, ⟨"c1", "n", 1, "D", "T", "Y"⟩] =
      Except.error PyErr.valueError := by
  refine ⟨rfl, ⟨⟨"c1", "i1"⟩, by decide, ⟨"c1", "n", 1, "D", "T", "Y"⟩, by decide,
    by decide, by decide⟩, rfl⟩

/-- C10 (amended): `generate_schedule` never returns a non-empty schedule
list; and whenever the first assignment with a matching course has a
course passing the capacity check with its end-slot index in range
(units between `-59` and `60`), the function raises `AttributeError`
from reading the missing `assign.room_id`. -/
theorem C10_generate_schedule_attribute_error (assignments : List CourseAssignment)
    (courses : List Course) :
    (∀ l, service_generate_schedule assignments courses = Except.ok l → l = []) ∧
    (∀ a, assignments.find? (fun a' => courses.any (fun c => c.id = a'.course_id)) = some a →
      ∀ course, courses.find? (fun c => c.id = a.course_id) = some course →
      course.units ≤ 60 → -59 ≤ course.units →
      service_generate_schedule assignments courses = Except.error PyErr.attributeError) := by
  constructor
  · intro l h
    exact schedLoop_ok courses assignments 0 [] l h
  · unfold service_generate_schedule
    induction assignments with
    | nil =>
      intro a ha
      cases ha
    | cons a' rest ih =>
      intro a ha course hcourse hle hge
      have hlen : ((generate_weekly_timeslots 7 17).length : Int) = 60 := by decide
      simp only [List.find?] at ha
      split at ha
      · injection ha with haa
        subst haa
        simp only [schedLoop, hcourse]
        have hcap : ¬ ((0 : Int) + course.units >
            ((generate_weekly_timeslots 7 17).length : Int)) := by
          rw [hlen]
          omega
        rw [if_neg hcap]
        obtain ⟨x, hx⟩ := pyIndex_ok (generate_weekly_timeslots 7 17) 0
          (by rw [hlen]; omega) (by rw [hlen]; omega)
        simp only [hx]
        obtain ⟨y, hy⟩ := pyIndex_ok (generate_weekly_timeslots 7 17)
          (0 + course.units - 1) (by rw [hlen]; omega) (by rw [hlen]; omega)
        simp only [hy]
      · rename_i hp
        have hnone : courses.find? (fun c => c.id = a'.course_id) = none := by
          rw [List.find?_eq_none]
          intro c hc
          rw [List.any_eq_false] at hp
          exact hp c hc
        simp only [schedLoop, hnone]
        exact ih a ha course hcourse hle hge

/-- Witness for C10: a single assignment matching a 3-unit course reaches
the `assign.room_id` read and fails with `AttributeError`. -/
theorem C10_generate_schedule_attribute_error_witness :
    service_generate_schedule [⟨"c1", "i1"⟩] [⟨"c1", "n", 3, "D", "T", "Y"⟩] =
      Except.error PyErr.attributeError :=
  (C10_generate_schedule_attribute_error [⟨"c1", "i1"⟩]
    [⟨"c1", "n", 3, "D", "T", "Y"⟩]).2 ⟨"c1", "i1"⟩ (by decide)
    ⟨"c1", "n", 3, "D", "T", "Y"⟩ (by decide) (by decide) (by decide)

/-! ## Time parsing (conflict_service.py `parse_time`) -/

/-- Decimal digit test for the strptime regex classes. -/
def isDigit (c : Char) : Bool := '0' ≤ c && c ≤ '9'

/-- Value of a decimal digit character. -/
def digitVal (c : Char) : Nat := c.toNat - 48

/-- Candidate parses of the `%H` field, in regex alternation order
(`2[0-3]|[0-1]\d|\d`): the two-digit branches accept exactly the
two-digit values up to 23 and precede the one-digit branch. -/
def candsH : List Char → List (Nat × List Char)
  | a :: b :: rest =>
    (if isDigit a && isDigit b && decide (10 * digitVal a + digitVal b ≤ 23) then
      [(10 * digitVal a + digitVal b, rest)] else []) ++
    (if isDigit a then [(digitVal a, b :: rest)] else [])
  | [a] => if isDigit a then [(digitVal a, [])] else []
  | [] => []

/-- Candidate parses of the `%M` field (`[0-5]\d|\d`). -/
def candsM : List Char → List (Nat × List Char)
  | a :: b :: rest =>
    (if isDigit a && decide (digitVal a ≤ 5) && isDigit b then
      [(10 * digitVal a + digitVal b, rest)] else []) ++
    (if isDigit a then [(digitVal a, b :: rest)] else [])
  | [a] => if isDigit a then [(digitVal a, [])] else []
  | [] => []

/-- Candidate parses of the `%S` field (`6[0-1]|[0-5]\d|\d`): two-digit
values up to 61, then one digit. -/
def candsS : List Char → List (Nat × List Char)
  | a :: b :: rest =>
    (if isDigit a && isDigit b && decide (10 * digitVal a + digitVal b ≤ 61) then
      [(10 * digitVal a + digitVal b, rest)] else []) ++
    (if isDigit a then [(digitVal a, b :: rest)] else [])
  | [a] => if isDigit a then [(digitVal a, [])] else []
  | [] => []

/-- `strptime(t, "%H:%M")` on a character list: hour field, a literal
colon, minute field, and the trailing unconverted-data check. -/
def matchHM (cs : List Char) : Option (Nat × Nat) :=
  (candsH cs).findSome? (fun hr =>
    match hr.2 with
    | ':' :: r2 =>
      (candsM r2).findSome? (fun mr => if mr.2 = [] then some (hr.1, mr.1) else none)
    | _ => none)

/-- `strptime(t, "%H:%M:%S")` on a character list. -/
def matchHMS (cs : List Char) : Option (Nat × Nat × Nat) :=
  (candsH cs).findSome? (fun hr =>
    match hr.2 with
    | ':' :: r2 =>
      (candsM r2).findSome? (fun mr =>
        match mr.2 with
        | ':' :: r3 =>
          (candsS r3).findSome? (fun sr =>
            if sr.2 = [] then some (hr.1, mr.1, sr.1) else none)
        | _ => none)
    | _ => none)

/-- `parse_time` (conflict_service.py lines 5-10): try `%H:%M:%S` first,
fall back to `%H:%M`; the result is the parsed (hour, minute, second)
triple of the returned `datetime`, with seconds defaulting to zero. -/
def parse_time (cs : List Char) : Option (Nat × Nat × Nat) :=
  match matchHMS cs with
  | some v => some v
  | none =>
    match matchHM cs with
    | some hm => some (hm.1, hm.2, 0)
    | none => none

/-- Character of a decimal digit. -/
def digitChar (n : Nat) : Char := Char.ofNat (48 + n)

/-- C9: for every `HH:MM` string the parser accepts, appending `":00"`
parses under the `%H:%M:%S` format to the same time value. -/
theorem C9_parse_time_hhmm_extension :
    ∀ a b c d : Fin 10,
    parse_time [digitChar a.val, digitChar b.val, ':', digitChar c.val, digitChar d.val] ≠
      none →
    parse_time ([digitChar a.val, digitChar b.val, ':', digitChar c.val, digitChar d.val] ++
        [':', '0', '0']) =
      parse_time [digitChar a.val, digitChar b.val, ':', digitChar c.val, digitChar d.val] := by
  decide

/-- Witness for C9: the string `12:34` parses to 12:34:00 both ways. -/
theorem C9_parse_time_hhmm_extension_witness :
    parse_time [digitChar (1 : Fin 10).val, digitChar (2 : Fin 10).val, ':',
      digitChar (3 : Fin 10).val, digitChar (4 : Fin 10).val] ≠ none ∧
    parse_time ([digitChar (1 : Fin 10).val, digitChar (2 : Fin 10).val, ':',
        digitChar (3 : Fin 10).val, digitChar (4 : Fin 10).val] ++ [':', '0', '0']) =
      parse_time [digitChar (1 : Fin 10).val, digitChar (2 : Fin 10).val, ':',
        digitChar (3 : Fin 10).val, digitChar (4 : Fin 10).val] :=
  ⟨by decide, C9_parse_time_hhmm_extension 1 2 3 4 (by decide)⟩

/-! ## Per-day view assembly (sched_AI.py lines 258-285) -/

/-- The `while cur < e_slot` loop splitting one schedule entry's slot
interval into per-day runs: each iteration emits the run from `cur` to
the smaller of the entry end and the end of the current day, then
continues from there. -/
def splitRuns (hpd e : Nat) (cur : Nat) : List (Nat × Nat) :=
  if h : cur < e ∧ 0 < hpd then
    (cur, min e ((cur / hpd + 1) * hpd)) :: splitRuns hpd e (min e ((cur / hpd + 1) * hpd))
  else []
termination_by e - cur
decreasing_by
  have h3 := Nat.div_add_mod cur hpd
  have h4 := Nat.mod_lt cur h.2
  have h5 : (cur / hpd + 1) * hpd = cur / hpd * hpd + hpd := by rw [Nat.add_mul, Nat.one_mul]
  have h6 : cur / hpd * hpd = hpd * (cur / hpd) := Nat.mul_comm _ _
  omega

/-- Unfolding equation of `splitRuns`. -/
theorem splitRuns_eq (hpd e cur : Nat) :
    splitRuns hpd e cur =
      if cur < e ∧ 0 < hpd then
        (cur, min e ((cur / hpd + 1) * hpd)) ::
          splitRuns hpd e (min e ((cur / hpd + 1) * hpd))
      else [] := by
  rw [splitRuns]
  split
  · rfl
  · rfl

/-- All runs collected from a list of entries, each entry given by its
`(start_slot, end_slot_exclusive)` pair, in entry order as the source
appends them. -/
def allRuns (hpd : Nat) : List (Nat × Nat) → List (Nat × Nat)
  | [] => []
  | en :: rest => splitRuns hpd en.2 en.1 ++ allRuns hpd rest

/-- The relation the per-day lists are sorted by: ascending `start_slot`. -/
def byStart (a b : Nat × Nat) : Prop := a.1 ≤ b.1

instance : DecidableRel byStart := fun a b => inferInstanceAs (Decidable (a.1 ≤ b.1))

instance : IsTotal (Nat × Nat) byStart := ⟨fun a b => Nat.le_total a.1 b.1⟩

instance : IsTrans (Nat × Nat) byStart := ⟨fun _ _ _ h1 h2 => Nat.le_trans h1 h2⟩

/-- One day's list of the per-day view: the runs whose start slot falls on
that day, in append order, then sorted by `start_slot` as the source's
final `sort` does (a stable sort, modelled by insertion sort). -/
def perDayEntries (hpd : Nat) (entries : List (Nat × Nat)) (d : Nat) : List (Nat × Nat) :=
  List.insertionSort byStart ((allRuns hpd entries).filter (fun r => r.1 / hpd = d))

/-- Key step bound: each loop iteration strictly advances `cur`. -/
theorem splitRuns_step_lt (hpd cur : Nat) (hhpd : 0 < hpd) :
    cur < (cur / hpd + 1) * hpd := by
  have h3 := Nat.div_add_mod cur hpd
  have h4 := Nat.mod_lt cur hhpd
  have h5 : (cur / hpd + 1) * hpd = cur / hpd * hpd + hpd := by rw [Nat.add_mul, Nat.one_mul]
  have h6 : cur / hpd * hpd = hpd * (cur / hpd) := Nat.mul_comm _ _
  omega

/-- A slot below the end of the day of slot `a` is on the same day. -/
theorem div_eq_of_between (hpd a b : Nat) (h1 : a ≤ b)
    (h2 : b < (a / hpd + 1) * hpd) : b / hpd = a / hpd := by
  refine Nat.div_eq_of_lt_le ?_ h2
  have h3 : a / hpd * hpd ≤ a := Nat.div_mul_le_self a hpd
  omega

/-- The runs form a chain of consecutive intervals from `cur` to `e`: each
run is nonempty, stays within one day, starts where the previous ended,
the first starts at `cur` and the last ends at `e`. -/
theorem splitRuns_spec (hpd : Nat) (hhpd : 0 < hpd) (e : Nat) :
    ∀ cur, cur < e →
      (splitRuns hpd e cur).head?.map (·.1) = some cur ∧
      (splitRuns hpd e cur).getLast?.map (·.2) = some e ∧
      List.Chain' (fun a b => a.2 = b.1) (splitRuns hpd e cur) ∧
      ∀ r ∈ splitRuns hpd e cur, r.1 < r.2 ∧ r.1 / hpd = (r.2 - 1) / hpd := by
  have main : ∀ n cur, e - cur = n → cur < e →
      (splitRuns hpd e cur).head?.map (·.1) = some cur ∧
      (splitRuns hpd e cur).getLast?.map (·.2) = some e ∧
      List.Chain' (fun a b => a.2 = b.1) (splitRuns hpd e cur) ∧
      ∀ r ∈ splitRuns hpd e cur, r.1 < r.2 ∧ r.1 / hpd = (r.2 - 1) / hpd := by
    intro n
    induction n using Nat.strong_induction_on with
    | _ n ih =>
      intro cur hn hcur
      have hstep := splitRuns_step_lt hpd cur hhpd
      have hlt : cur < min e ((cur / hpd + 1) * hpd) := by omega
      have hday : (min e ((cur / hpd + 1) * hpd) - 1) / hpd = cur / hpd :=
        div_eq_of_between hpd cur _ (by omega) (by omega)
      rw [splitRuns_eq, if_pos ⟨hcur, hhpd⟩]
      by_cases hend : min e ((cur / hpd + 1) * hpd) < e
      · obtain ⟨th, tl, tc, tr⟩ := ih (e - min e ((cur / hpd + 1) * hpd)) (by omega)
          (min e ((cur / hpd + 1) * hpd)) rfl hend
        refine ⟨rfl, ?_, ?_, ?_⟩
        · rcases htail : splitRuns hpd e (min e ((cur / hpd + 1) * hpd)) with _ | ⟨x, xs⟩
          · rw [htail] at th
            simp at th
          · rw [htail] at tl
            rw [← tl]
            exact congrArg (Option.map _) List.getLast?_cons_cons
        · refine List.chain'_cons'.mpr ⟨?_, tc⟩
          intro b hb
          rcases htail : splitRuns hpd e (min e ((cur / hpd + 1) * hpd)) with _ | ⟨x, xs⟩
          · rw [htail] at hb
            cases hb
          · rw [htail] at hb th
            have hx1 : x.1 = min e ((cur / hpd + 1) * hpd) := by simpa using th
            have hbx : x = b := by simpa using hb
            subst hbx
            exact hx1.symm
        · intro r hr
          rcases List.mem_cons.mp hr with rfl | hr'
          · exact ⟨hlt, hday.symm⟩
          · exact tr r hr'
      · have heq : min e ((cur / hpd + 1) * hpd) = e := by omega
        have hempty : splitRuns hpd e (min e ((cur / hpd + 1) * hpd)) = [] := by
          rw [splitRuns_eq, if_neg]
          intro hcon
          omega
        rw [hempty]
        refine ⟨rfl, ?_, ?_, ?_⟩
        · simp [heq]
        · exact List.chain'_singleton _
        · intro r hr
          rcases List.mem_cons.mp hr with rfl | hr'
          · exact ⟨hlt, hday.symm⟩
          · cases hr'
  intro cur hcur
  exact main (e - cur) cur rfl hcur

/-- C8: for every schedule entry the per-day runs partition its slot
interval `[start_slot, end_slot_exclusive)`: consecutive, nonempty, each
within a single day, the first starting at the entry start and the last
ending at the entry end; and every day's per-day list is sorted by
`start_slot`. -/
theorem C8_per_day_view (hpd s e d : Nat) (entries : List (Nat × Nat))
    (hhpd : 0 < hpd) (hse : s < e) :
    (splitRuns hpd e s).head?.map (·.1) = some s ∧
    (splitRuns hpd e s).getLast?.map (·.2) = some e ∧
    List.Chain' (fun a b => a.2 = b.1) (splitRuns hpd e s) ∧
    (∀ r ∈ splitRuns hpd e s, r.1 < r.2 ∧ r.1 / hpd = (r.2 - 1) / hpd) ∧
    List.Sorted byStart (perDayEntries hpd entries d) := by
  obtain ⟨h1, h2, h3, h4⟩ := splitRuns_spec hpd hhpd e s hse
  exact ⟨h1, h2, h3, h4, List.sorted_insertionSort byStart _⟩

/-- Witness for C8: a 9-hour day and an entry spanning slots 7 to 12 (two
runs, one per day), with the per-day list of day 0 sorted. -/
theorem C8_per_day_view_witness :
    (splitRuns 9 12 7).head?.map (·.1) = some 7 ∧
    (splitRuns 9 12 7).getLast?.map (·.2) = some 12 ∧
    List.Chain' (fun a b => a.2 = b.1) (splitRuns 9 12 7) ∧
    (∀ r ∈ splitRuns 9 12 7, r.1 < r.2 ∧ r.1 / 9 = (r.2 - 1) / 9) ∧
    List.Sorted byStart (perDayEntries 9 [(7, 12)] 0) :=
  C8_per_day_view 9 7 12 0 [(7, 12)] (by decide) (by decide)

/-! ## Vacancy computation (conflict_service.py `get_vacant_slots`) -/

/-- The body of one iteration of the gap loop in `get_vacant_slots`
(conflict_service.py lines 56-84), for a consecutive pair of sorted
occupied intervals with current end `e1` and next start `s2`:
back-to-back or overlapping slots are skipped; a gap surrounding the
lunch break is split into its before-lunch and after-lunch parts;
any other gap is emitted whole. -/
def gapPiece (ls le e1 s2 : Nat) : List (Nat × Nat) :=
  if s2 ≤ e1 then []
  else if e1 ≤ ls ∧ le ≤ s2 then
    (if e1 < ls then [(e1, ls)] else []) ++ (if le < s2 then [(le, s2)] else [])
  else if e1 < s2 then [(e1, s2)] else []

/-- The gap loop over consecutive pairs of the sorted occupied list
(conflict_service.py lines 56-84). -/
def midGaps (ls le : Nat) : List (Nat × Nat) → List (Nat × Nat)
  | (_, e1) :: (s2, e2) :: rest => gapPiece ls le e1 s2 ++ midGaps ls le ((s2, e2) :: rest)
  | _ => []

/-- `get_vacant_slots` (conflict_service.py lines 40-105): sort the
occupied slots by start, emit the spans before the first start, the gaps
between consecutive slots (split around lunch where applicable), and the
span after the last end; an empty occupied list yields the full-window
span followed by the two lunch-split spans.  Slots are `(start, end)`
minute pairs; the source formats them to 12-hour strings. -/
def get_vacant_slots (occupied : List (Nat × Nat))
    (day_start day_end lunch_start lunch_end : Nat) : List (Nat × Nat) :=
  match List.insertionSort byStart occupied with
  | [] =>
    (if day_start < day_end then [(day_start, day_end)] else []) ++
      [(day_start, lunch_start), (lunch_end, day_end)]
  | x :: rest =>
    (if day_start < x.1 then [(day_start, x.1)] else []) ++
      midGaps lunch_start lunch_end (x :: rest) ++
      (if (rest.getLastD x).2 < day_end then [((rest.getLastD x).2, day_end)] else [])

/-- A point lies in some half-open interval of the list. -/
def covers (l : List (Nat × Nat)) (p : Nat) : Prop :=
  ∃ iv ∈ l, iv.1 ≤ p ∧ p < iv.2

instance (l : List (Nat × Nat)) (p : Nat) : Decidable (covers l p) :=
  inferInstanceAs (Decidable (∃ iv ∈ l, iv.1 ≤ p ∧ p < iv.2))

/-- Every emitted gap piece is a nonempty interval. -/
theorem gapPiece_lt (ls le e1 s2 : Nat) : ∀ iv ∈ gapPiece ls le e1 s2, iv.1 < iv.2 := by
  intro iv hiv
  unfold gapPiece at hiv
  split at hiv
  · cases hiv
  · split at hiv
    · rw [List.mem_append] at hiv
      rcases hiv with hiv | hiv <;> split at hiv <;> simp_all
    · split at hiv
      · simp_all
      · cases hiv

/-- Every emitted gap piece lies between the current end and the next
start. -/
theorem gapPiece_bounds (ls le e1 s2 : Nat) (hlsle : ls ≤ le) :
    ∀ iv ∈ gapPiece ls le e1 s2, e1 ≤ iv.1 ∧ iv.2 ≤ s2 := by
  intro iv hiv
  unfold gapPiece at hiv
  split at hiv
  · cases hiv
  · split at hiv
    · rw [List.mem_append] at hiv
      rcases hiv with hiv | hiv <;> split at hiv <;> simp_all <;> omega
    · split at hiv
      · simp_all
      · cases hiv

/-- The at-most-two pieces of one gap are chained. -/
theorem gapPiece_chain (ls le e1 s2 : Nat) (hlsle : ls ≤ le) :
    List.Chain' (fun a b => a.2 ≤ b.1) (gapPiece ls le e1 s2) := by
  unfold gapPiece
  split
  · exact List.chain'_nil
  · split
    · by_cases h3 : e1 < ls <;> by_cases h4 : le < s2 <;>
        simp [h3, h4, List.chain'_cons, hlsle]
    · split
      · exact List.chain'_singleton _
      · exact List.chain'_nil

/-- Every point of a gap between consecutive occupied slots is covered by
an emitted piece or lies inside the lunch break. -/
theorem gapPiece_cover (ls le e1 s2 p : Nat) (h1 : e1 ≤ p) (h2 : p < s2) :
    covers (gapPiece ls le e1 s2) p ∨ (ls ≤ p ∧ p < le) := by
  unfold gapPiece
  have hns : ¬ s2 ≤ e1 := by omega
  rw [if_neg hns]
  by_cases hmid : e1 ≤ ls ∧ le ≤ s2
  · rw [if_pos hmid]
    by_cases hpls : p < ls
    · have hel : e1 < ls := by omega
      refine Or.inl ⟨(e1, ls), ?_, h1, hpls⟩
      simp [hel]
    · by_cases hple : p < le
      · exact Or.inr ⟨by omega, hple⟩
      · have hles : le < s2 := by omega
        refine Or.inl ⟨(le, s2), ?_, by omega, h2⟩
        simp [hles]
  · rw [if_neg hmid, if_pos (show e1 < s2 by omega)]
    exact Or.inl ⟨(e1, s2), List.mem_singleton.mpr rfl, h1, h2⟩

/-- Unfolding of `getLastD` on a cons cell. -/
theorem getLastD_cons_eq (x y : Nat × Nat) (l : List (Nat × Nat)) :
    (y :: l).getLastD x = l.getLastD y := by
  cases l <;> rfl

/-- The defaulted last element of `x :: l` is a member of `x :: l`. -/
theorem getLastD_mem : ∀ (l : List (Nat × Nat)) (x : Nat × Nat), l.getLastD x ∈ x :: l := by
  intro l
  induction l with
  | nil => intro x; exact List.mem_singleton.mpr rfl
  | cons y rest ih =>
    intro x
    rw [getLastD_cons_eq]
    exact List.mem_cons_of_mem _ (ih y)

/-- In a sorted list the head starts no later than the last element. -/
theorem sorted_le_getLastD (x : Nat × Nat) (l : List (Nat × Nat))
    (hs : List.Sorted byStart (x :: l)) : x.1 ≤ (l.getLastD x).1 := by
  rcases List.mem_cons.mp (getLastD_mem l x) with h | h
  · rw [h]
  · exact (List.sorted_cons.mp hs).1 _ h

/-- The gap pieces of a sorted occupied list start strictly after the first
occupied start, end no later than the last occupied start, form a chain,
and are nonempty intervals. -/
theorem midGaps_facts (ls le : Nat) (hlsle : ls ≤ le) :
    ∀ (l : List (Nat × Nat)) (x : Nat × Nat), List.Sorted byStart (x :: l) →
      (∀ iv ∈ x :: l, iv.1 < iv.2) →
      (∀ iv ∈ midGaps ls le (x :: l), x.1 < iv.1 ∧ iv.2 ≤ (l.getLastD x).1) ∧
      List.Chain' (fun a b => a.2 ≤ b.1) (midGaps ls le (x :: l)) ∧
      (∀ iv ∈ midGaps ls le (x :: l), iv.1 < iv.2) := by
  intro l
  induction l with
  | nil =>
    intro x _ _
    refine ⟨?_, ?_, ?_⟩ <;> simp [midGaps]
  | cons y rest ih =>
    intro x hs hlt
    have hs' : List.Sorted byStart (y :: rest) := hs.of_cons
    have hlt' : ∀ iv ∈ y :: rest, iv.1 < iv.2 :=
      fun iv hiv => hlt iv (List.mem_cons_of_mem _ hiv)
    obtain ⟨ihb, ihc, ihl⟩ := ih y hs' hlt'
    have hxy : x.1 ≤ y.1 := (List.sorted_cons.mp hs).1 y (List.mem_cons_self _ _)
    have hx2 : x.1 < x.2 := hlt x (List.mem_cons_self _ _)
    have hylast : y.1 ≤ (rest.getLastD y).1 := sorted_le_getLastD y rest hs'
    have hunf : midGaps ls le (x :: y :: rest) =
        gapPiece ls le x.2 y.1 ++ midGaps ls le (y :: rest) := rfl
    rw [hunf, getLastD_cons_eq]
    refine ⟨?_, ?_, ?_⟩
    · intro iv hiv
      rcases List.mem_append.mp hiv with hiv | hiv
      · obtain ⟨hb1, hb2⟩ := gapPiece_bounds ls le x.2 y.1 hlsle iv hiv
        exact ⟨by omega, by omega⟩
      · obtain ⟨hb1, hb2⟩ := ihb iv hiv
        exact ⟨by omega, hb2⟩
    · refine (gapPiece_chain ls le x.2 y.1 hlsle).append ihc ?_
      intro a ha b hb
      have ha' : a ∈ gapPiece ls le x.2 y.1 := List.mem_of_mem_getLast? ha
      have hb' : b ∈ midGaps ls le (y :: rest) := List.mem_of_mem_head? hb
      have h1 := (gapPiece_bounds ls le x.2 y.1 hlsle a ha').2
      have h2 := (ihb b hb').1
      exact Nat.le_trans h1 (Nat.le_of_lt h2)
    · intro iv hiv
      rcases List.mem_append.mp hiv with hiv | hiv
      · exact gapPiece_lt ls le x.2 y.1 iv hiv
      · exact ihl iv hiv

/-- Every point from the first occupied start onwards is covered by a gap
piece, an occupied interval, or the lunch break, unless it lies at or
after the last occupied end. -/
theorem midGaps_cover (ls le : Nat) :
    ∀ (l : List (Nat × Nat)) (x : Nat × Nat), List.Sorted byStart (x :: l) →
      (∀ iv ∈ x :: l, iv.1 < iv.2) →
      ∀ p, x.1 ≤ p →
        covers (midGaps ls le (x :: l)) p ∨ covers (x :: l) p ∨ (ls ≤ p ∧ p < le) ∨
          (l.getLastD x).2 ≤ p := by
  intro l
  induction l with
  | nil =>
    intro x _ _ p hp
    by_cases hpx : p < x.2
    · exact Or.inr (Or.inl ⟨x, List.mem_cons_self _ _, hp, hpx⟩)
    · exact Or.inr (Or.inr (Or.inr (Nat.le_of_not_lt hpx)))
  | cons y rest ih =>
    intro x hs hlt p hp
    have hs' : List.Sorted byStart (y :: rest) := hs.of_cons
    have hlt' : ∀ iv ∈ y :: rest, iv.1 < iv.2 :=
      fun iv hiv => hlt iv (List.mem_cons_of_mem _ hiv)
    have hunf : midGaps ls le (x :: y :: rest) =
        gapPiece ls le x.2 y.1 ++ midGaps ls le (y :: rest) := rfl
    rw [hunf, getLastD_cons_eq]
    by_cases hpy : p < y.1
    · by_cases hpx : p < x.2
      · exact Or.inr (Or.inl ⟨x, List.mem_cons_self _ _, hp, hpx⟩)
      · rcases gapPiece_cover ls le x.2 y.1 p (by omega) hpy with h | h
        · obtain ⟨iv, hiv, h1, h2⟩ := h
          exact Or.inl ⟨iv, List.mem_append_left _ hiv, h1, h2⟩
        · exact Or.inr (Or.inr (Or.inl h))
    · rcases ih y hs' hlt' p (by omega) with h | h | h | h
      · obtain ⟨iv, hiv, h1, h2⟩ := h
        exact Or.inl ⟨iv, List.mem_append_right _ hiv, h1, h2⟩
      · obtain ⟨iv, hiv, h1, h2⟩ := h
        exact Or.inr (Or.inl ⟨iv, List.mem_cons_of_mem _ hiv, h1, h2⟩)
      · exact Or.inr (Or.inr (Or.inl h))
      · exact Or.inr (Or.inr (Or.inr h))

/-- Along a chain of nonempty intervals, the head ends before every later
interval starts. -/
theorem chain_le_of_mem : ∀ (l : List (Nat × Nat)) (a : Nat × Nat),
    List.Chain' (fun u v => u.2 ≤ v.1) (a :: l) → (∀ iv ∈ l, iv.1 < iv.2) →
    ∀ b ∈ l, a.2 ≤ b.1 := by
  intro l
  induction l with
  | nil => intro a _ _ b hb; cases hb
  | cons y rs ih =>
    intro a hc hlt b hb
    obtain ⟨hay, hc'⟩ := List.chain'_cons.mp hc
    rcases List.mem_cons.mp hb with rfl | hb'
    · exact hay
    · have hy2 : y.1 < y.2 := hlt y (List.mem_cons_self _ _)
      have hyb := ih y hc' (fun iv hiv => hlt iv (List.mem_cons_of_mem _ hiv)) b hb'
      omega

/-- A chain of nonempty half-open intervals is pairwise ordered: every
interval ends no later than every later interval starts. -/
theorem chain_to_pairwise : ∀ l : List (Nat × Nat),
    List.Chain' (fun u v => u.2 ≤ v.1) l → (∀ iv ∈ l, iv.1 < iv.2) →
    List.Pairwise (fun u v => u.2 ≤ v.1) l := by
  intro l
  induction l with
  | nil => intro _ _; exact List.Pairwise.nil
  | cons a rs ih =>
    intro hc hlt
    refine List.Pairwise.cons ?_ (ih hc.tail (fun iv hiv => hlt iv (List.mem_cons_of_mem _ hiv)))
    exact chain_le_of_mem rs a hc (fun iv hiv => hlt iv (List.mem_cons_of_mem _ hiv))

/-- C1 (amended): for every nonempty occupied list with positive-length
intervals, the vacant slots are pairwise disjoint nonempty intervals in
ascending order; if moreover every occupied interval lies within the
operating window `[06:00, 21:00)`, the union of the vacant slots, the
occupied intervals and the lunch interval is exactly the operating
window.  (Vacant slots are not in general disjoint from lunch, and the
empty occupied list yields overlapping slots; see the counterexample.) -/
theorem C1_vacant_slots (occupied : List (Nat × Nat)) (hne : occupied ≠ [])
    (hlt : ∀ iv ∈ occupied, iv.1 < iv.2) :
    List.Pairwise (fun u v => u.2 ≤ v.1) (get_vacant_slots occupied 360 1260 720 780) ∧
    (∀ iv ∈ get_vacant_slots occupied 360 1260 720 780, iv.1 < iv.2) ∧
    ((∀ iv ∈ occupied, 360 ≤ iv.1 ∧ iv.2 ≤ 1260) →
      ∀ p, (covers (get_vacant_slots occupied 360 1260 720 780) p ∨ covers occupied p ∨
            (720 ≤ p ∧ p < 780)) ↔ (360 ≤ p ∧ p < 1260)) := by
  have hperm := List.perm_insertionSort byStart occupied
  have hsorted := List.sorted_insertionSort byStart occupied
  rcases hsl : List.insertionSort byStart occupied with _ | ⟨x, l⟩
  · have h0 := hperm.length_eq
    rw [hsl] at h0
    simp only [List.length_nil] at h0
    exact absurd (List.length_eq_zero.mp h0.symm) hne
  · rw [hsl] at hperm hsorted
    have hlt' : ∀ iv ∈ x :: l, iv.1 < iv.2 := fun iv hiv => hlt iv (hperm.subset hiv)
    have hv : get_vacant_slots occupied 360 1260 720 780 =
        (if 360 < x.1 then [(360, x.1)] else []) ++
          midGaps 720 780 (x :: l) ++
          (if (l.getLastD x).2 < 1260 then [((l.getLastD x).2, 1260)] else []) := by
      unfold get_vacant_slots
      rw [hsl]
    obtain ⟨hbounds, hchain, hltm⟩ := midGaps_facts 720 780 (by omega) l x hsorted hlt'
    have hlastmem : l.getLastD x ∈ x :: l := getLastD_mem l x
    have hlast_lt : (l.getLastD x).1 < (l.getLastD x).2 := hlt' _ hlastmem
    have hxle : x.1 ≤ (l.getLastD x).1 := sorted_le_getLastD x l hsorted
    have hx2 : x.1 < x.2 := hlt' x (List.mem_cons_self _ _)
    have hchain_full : List.Chain' (fun u v => u.2 ≤ v.1)
        ((if 360 < x.1 then [(360, x.1)] else []) ++ midGaps 720 780 (x :: l) ++
          (if (l.getLastD x).2 < 1260 then [((l.getLastD x).2, 1260)] else [])) := by
      refine List.Chain'.append (List.Chain'.append ?_ hchain ?_) ?_ ?_
      · split
        · exact List.chain'_singleton _
        · exact List.chain'_nil
      · intro a ha b hb
        have hb' := (hbounds b (List.mem_of_mem_head? hb)).1
        have ha' : a ∈ (if 360 < x.1 then [(360, x.1)] else []) :=
          List.mem_of_mem_getLast? ha
        split at ha'
        · have haeq : a = (360, x.1) := List.mem_singleton.mp ha'
          rw [haeq]
          exact Nat.le_of_lt hb'
        · cases ha'
      · split
        · exact List.chain'_singleton _
        · exact List.chain'_nil
      · intro a ha b hb
        have hb' : b ∈ (if (l.getLastD x).2 < 1260 then [((l.getLastD x).2, 1260)] else []) :=
          List.mem_of_mem_head? hb
        split at hb'
        · have hbeq : b = ((l.getLastD x).2, 1260) := List.mem_singleton.mp hb'
          have ha' : a ∈ (if 360 < x.1 then [(360, x.1)] else []) ++
              midGaps 720 780 (x :: l) := List.mem_of_mem_getLast? ha
          rcases List.mem_append.mp ha' with ha'' | ha''
          · split at ha''
            · have haeq : a = (360, x.1) := List.mem_singleton.mp ha''
              rw [haeq, hbeq]
              show x.1 ≤ (l.getLastD x).2
              omega
            · cases ha''
          · have h2 := (hbounds a ha'').2
            rw [hbeq]
            show a.2 ≤ (l.getLastD x).2
            omega
        · cases hb'
    have hlt_full : ∀ iv ∈ (if 360 < x.1 then [(360, x.1)] else []) ++
        midGaps 720 780 (x :: l) ++
        (if (l.getLastD x).2 < 1260 then [((l.getLastD x).2, 1260)] else []), iv.1 < iv.2 := by
      intro iv hiv
      rcases List.mem_append.mp hiv with hiv | hiv
      · rcases List.mem_append.mp hiv with hiv | hiv
        · split at hiv
          · rename_i hg
            have haeq : iv = (360, x.1) := List.mem_singleton.mp hiv
            rw [haeq]
            exact hg
          · cases hiv
        · exact hltm iv hiv
      · split at hiv
        · rename_i hg
          have haeq : iv = ((l.getLastD x).2, 1260) := List.mem_singleton.mp hiv
          rw [haeq]
          exact hg
        · cases hiv
    refine ⟨?_, ?_, ?_⟩
    · rw [hv]
      exact chain_to_pairwise _ hchain_full hlt_full
    · rw [hv]
      exact hlt_full
    · intro hwin p
      have hwinx := hwin x (hperm.subset (List.mem_cons_self _ _))
      have hwinlast := hwin _ (hperm.subset hlastmem)
      constructor
      · rintro (h | h | h)
        · obtain ⟨iv, hiv, hp1, hp2⟩ := h
          rw [hv] at hiv
          rcases List.mem_append.mp hiv with hiv | hiv
          · rcases List.mem_append.mp hiv with hiv | hiv
            · split at hiv
              · have haeq : iv = (360, x.1) := List.mem_singleton.mp hiv
                rw [haeq] at hp1 hp2
                constructor
                · exact hp1
                · omega
              · cases hiv
            · obtain ⟨hb1, hb2⟩ := hbounds iv hiv
              omega
          · split at hiv
            · have haeq : iv = ((l.getLastD x).2, 1260) := List.mem_singleton.mp hiv
              rw [haeq] at hp1 hp2
              omega
            · cases hiv
        · obtain ⟨iv, hiv, hp1, hp2⟩ := h
          have := hwin iv hiv
          omega
        · omega
      · rintro ⟨hp1, hp2⟩
        by_cases hpx : p < x.1
        · refine Or.inl ⟨(360, x.1), ?_, hp1, hpx⟩
          rw [hv]
          have hg : 360 < x.1 := by omega
          simp [hg]
        · rcases midGaps_cover 720 780 l x hsorted hlt' p (by omega) with h | h | h | h
          · obtain ⟨iv, hiv, hq1, hq2⟩ := h
            refine Or.inl ⟨iv, ?_, hq1, hq2⟩
            rw [hv]
            exact List.mem_append_left _ (List.mem_append_right _ hiv)
          · obtain ⟨iv, hiv, hq1, hq2⟩ := h
            exact Or.inr (Or.inl ⟨iv, hperm.subset hiv, hq1, hq2⟩)
          · exact Or.inr (Or.inr h)
          · refine Or.inl ⟨((l.getLastD x).2, 1260), ?_, h, hp2⟩
            rw [hv]
            have hg : (l.getLastD x).2 < 1260 := by omega
            refine List.mem_append_right _ ?_
            rw [if_pos hg]
            exact List.mem_singleton.mpr rfl

/-- Witness for C1: one occupied slot 10:00-11:00 inside the window; the
vacant slots are disjoint, ascending and nonempty, and together with the
occupied slot and lunch they tile the window exactly. -/
theorem C1_vacant_slots_witness :
    List.Pairwise (fun u v => u.2 ≤ v.1) (get_vacant_slots [(600, 660)] 360 1260 720 780) ∧
    (∀ iv ∈ get_vacant_slots [(600, 660)] 360 1260 720 780, iv.1 < iv.2) ∧
    ((∀ iv ∈ [((600 : Nat), (660 : Nat))], 360 ≤ iv.1 ∧ iv.2 ≤ 1260) →
      ∀ p, (covers (get_vacant_slots [(600, 660)] 360 1260 720 780) p ∨
            covers [(600, 660)] p ∨ (720 ≤ p ∧ p < 780)) ↔ (360 ≤ p ∧ p < 1260)) :=
  C1_vacant_slots [(600, 660)] (by decide) (by decide)

/-- C1 counterexample: the claim fails as stated on three inputs.  With no
occupied slots the function returns the full window alongside the two
lunch-split slots, which are not pairwise disjoint.  With the single
in-window slot 14:00-15:00 the before-first vacant slot `(06:00, 14:00)`
contains the lunch interval.  With the slot 05:00-07:00 (start < end, but
outside the window) the union of vacant, occupied and lunch is not the
operating window: it contains 05:00. -/
theorem C1_counterexample :
    get_vacant_slots [] 360 1260 720 780 = [(360, 1260), (360, 720), (780, 1260)] ∧
    ¬ List.Pairwise (fun u v => u.2 ≤ v.1) (get_vacant_slots [] 360 1260 720 780) ∧
    (∀ iv ∈ [((840 : Nat), (900 : Nat))], iv.1 < iv.2 ∧ 360 ≤ iv.1 ∧ iv.2 ≤ 1260) ∧
    (∃ iv ∈ get_vacant_slots [(840, 900)] 360 1260 720 780, iv.1 ≤ 720 ∧ 720 < iv.2) ∧
    (∀ iv ∈ [((300 : Nat), (420 : Nat))], iv.1 < iv.2) ∧
    ¬ (∀ p, (covers (get_vacant_slots [(300, 420)] 360 1260 720 780) p ∨
          covers [(300, 420)] p ∨ (720 ≤ p ∧ p < 780)) ↔ (360 ≤ p ∧ p < 1260)) := by
  refine ⟨by decide, by decide, by decide, by decide, by decide, ?_⟩
  intro h
  have h300 := (h 300).mp (Or.inr (Or.inl (by decide)))
  omega
